import Mathlib

/-!
# Verification of the BIOD27 debate-schedule app's submission store and reveal logic

Shallow embedding of `src/debate.py`.  CSV files are modelled as lists of
records; a file that may be absent is `Option (List _)` (`none` = missing).
Python code that can raise an uncaught exception is modelled with an outer
`Option`: `none` means the interaction dies with an exception, `some v` means
the code returns `v`.  String handling is modelled for ASCII data (the app's
CSV fields are ASCII); timezone-aware datetimes of a single fixed timezone are
modelled by the `Instant` structure, ordered through the order-embedding
`Instant.key`.
-/

/-- One decimal digit as a character (used to model Python's `str(int)`). -/
def digitChar : Nat → Char
  | 0 => '0' | 1 => '1' | 2 => '2' | 3 => '3' | 4 => '4'
  | 5 => '5' | 6 => '6' | 7 => '7' | 8 => '8' | _ => '9'

/-- Value of a decimal digit character, `none` for non-digits. -/
def charVal (c : Char) : Option Nat :=
  if '0' ≤ c ∧ c ≤ '9' then some (c.toNat - '0'.toNat) else none

/-- Big-endian decimal digit characters of `n`; `fuel` bounds the recursion
(any `fuel > n` is enough). -/
def natToStrAux : Nat → Nat → List Char
  | 0, _ => []
  | fuel + 1, n =>
    if n < 10 then [digitChar n]
    else natToStrAux fuel (n / 10) ++ [digitChar (n % 10)]

/-- Decimal digit characters of `n`, the way Python's `str` prints a `Nat`. -/
def natChars (n : Nat) : List Char := natToStrAux (n + 1) n

/-- Model of Python `str : int -> str` (minimal decimal form, `-` sign). -/
def intToStr (n : Int) : String :=
  if n < 0 then ⟨'-' :: natChars (-n).toNat⟩ else ⟨natChars n.toNat⟩

/-- Parse a big-endian digit-character list, accumulating into `acc`;
`none` as soon as a non-digit appears. -/
def parseNatAux : List Char → Nat → Option Nat
  | [], acc => some acc
  | c :: cs, acc =>
    match charVal c with
    | some v => parseNatAux cs (acc * 10 + v)
    | none => none

/-- Parse a non-empty all-digits character list as a `Nat`. -/
def parseNatBE (cs : List Char) : Option Nat :=
  if cs = [] then none else parseNatAux cs 0

/-- Strip leading and trailing whitespace from a character list
(Python's `str.strip()` on the characters). -/
def stripWS (cs : List Char) : List Char :=
  ((cs.dropWhile Char.isWhitespace).reverse.dropWhile Char.isWhitespace).reverse

/-- Sign-and-digits parse of an already whitespace-stripped character list. -/
def pyIntCore : List Char → Option Int
  | [] => none
  | c :: rest =>
    if c = '-' then (parseNatBE rest).map (fun m => -(Int.ofNat m))
    else if c = '+' then (parseNatBE rest).map Int.ofNat
    else (parseNatBE (c :: rest)).map Int.ofNat

/-- Model of Python `int : str -> int`: strips surrounding whitespace, accepts
an optional sign followed by one or more digits; `none` models the
`ValueError` raised on any other input. -/
def pyInt (s : String) : Option Int := pyIntCore (stripWS s.data)

/-- Tokenizer behind `pySplitWS`: walk the characters keeping the (reversed)
current token in `acc`, emitting a token at each whitespace run. -/
def wsTokensAux : List Char → List Char → List String
  | [], acc => if acc = [] then [] else [⟨acc.reverse⟩]
  | c :: cs, acc =>
    if c.isWhitespace then
      if acc = [] then wsTokensAux cs [] else ⟨acc.reverse⟩ :: wsTokensAux cs []
    else wsTokensAux cs (c :: acc)

/-- Model of Python `str.split()` with no argument: split on whitespace runs,
discarding empty pieces. -/
def pySplitWS (s : String) : List String := wsTokensAux s.data []

/-- Split a character list at every occurrence of `sep` (the single-character
case of Python's `str.split(sep)` / Lean's `String.splitOn`). -/
def splitCharAux (sep : Char) : List Char → List Char → List String
  | [], acc => [⟨acc.reverse⟩]
  | c :: cs, acc =>
    if c = sep then ⟨acc.reverse⟩ :: splitCharAux sep cs []
    else splitCharAux sep cs (c :: acc)

/-- ASCII lowercasing, character by character (Python `str.lower()` on the
app's ASCII data). -/
def asciiLower (s : String) : String := ⟨s.data.map Char.toLower⟩

/-- Python `.strip().lower()` (ASCII), used for team-name matching. -/
def pyStripLower (s : String) : String := asciiLower ⟨stripWS s.data⟩

/-- Truthiness of a value read from a row dictionary: `None` and `""` are
falsy, every other string truthy. -/
def pyTruthy : Option String → Bool
  | none => false
  | some s => s ≠ ""

/-- Python `==` between a `str` and a `str`-or-`None` value
(comparing a string with `None` is `False`, no exception). -/
def pyEqOpt (s : String) : Option String → Bool
  | some t => s == t
  | none => false

/-- A timezone-aware timestamp of the app's single configured timezone
(`America/Toronto`).  Only the calendar fields matter to the program:
ordering goes through `Instant.key`. -/
structure Instant where
  year : Nat
  month : Nat
  day : Nat
  hour : Nat
  minute : Nat
deriving DecidableEq, Repr

/-- Order-embedding of an `Instant` into `Nat`; for valid calendar fields
(month ≤ 12, day ≤ 31, hour < 24, minute < 60) it preserves the datetime
order used by Python's `<` on aware datetimes of one timezone. -/
def Instant.key (t : Instant) : Nat :=
  (((t.year * 12 + t.month) * 31 + t.day) * 24 + t.hour) * 60 + t.minute

/-- C-locale abbreviated month names, as produced by `strftime('%b')`
and accepted by `strptime('%b')`. -/
def monthAbbrs : List String :=
  ["Jan", "Feb", "Mar", "Apr", "May", "Jun",
   "Jul", "Aug", "Sep", "Oct", "Nov", "Dec"]

/-- `strftime('%b')` for month number `m` (1-based). -/
def monthAbbr (m : Nat) : String := (monthAbbrs.getD (m - 1) "")

/-- `strptime` matching of `%b`: case-insensitive abbreviated month name,
returning the 1-based month number. -/
def monthFromAbbr (s : String) : Option Nat :=
  (monthAbbrs.findIdx? (fun a => asciiLower a == asciiLower s)).map (· + 1)

/-- Whether `y` is a Gregorian leap year (as `datetime` validates days). -/
def isLeap (y : Nat) : Bool :=
  y % 4 == 0 && (y % 100 != 0 || y % 400 == 0)

/-- Number of days in month `m` of year `y`. -/
def daysInMonth (y m : Nat) : Nat :=
  if m = 2 then (if isLeap y then 29 else 28)
  else if m = 4 ∨ m = 6 ∨ m = 9 ∨ m = 11 then 30
  else 31

/-- `strftime('%d')`: zero-padded two-digit day. -/
def pad2 (d : Nat) : String :=
  if d < 10 then "0" ++ ⟨natChars d⟩ else ⟨natChars d⟩

/-- The year-independent `"Mon DD"` key built by
`dt_obj.strftime('%b %d')` in `get_reveal_date_for_debate`. -/
def keyOf (mo d : Nat) : String := monthAbbr mo ++ " " ++ pad2 d

/-- `datetime.strptime(s, '%Y-%m-%d')`:
exactly four digits, dash, 1-2 digit month, dash, 1-2 digit day, with the
whole string consumed and the day validated against the (leap-aware)
calendar; `none` models `ValueError`. -/
def parseYMD (s : String) : Option (Nat × Nat × Nat) :=
  match splitCharAux '-' s.data [] with
  | [ys, ms, ds] => do
    let y ← parseNatBE ys.data
    let mo ← parseNatBE ms.data
    let d ← parseNatBE ds.data
    if ys.length = 4 ∧ ms.length ≤ 2 ∧ ds.length ≤ 2 ∧ 1 ≤ y ∧
        1 ≤ mo ∧ mo ≤ 12 ∧ 1 ≤ d ∧ d ≤ daysInMonth y mo then
      some (y, mo, d)
    else none
  | _ => none

/-- `datetime.strptime(" ".join(tokens[:2]), '%b %d')` where `tokens` are the
whitespace-split pieces of the date string: needs at least two tokens, the
first a `%b` month abbreviation, the second a 1-2 digit day valid in that
month of the default year 1900; `none` models `ValueError`. -/
def parseBD (tokens : List String) : Option (Nat × Nat) :=
  match tokens with
  | t0 :: t1 :: _ => do
    let mo ← monthFromAbbr t0
    let d ← parseNatBE t1.data
    if t1.length ≤ 2 ∧ 1 ≤ d ∧ d ≤ daysInMonth 1900 mo then some (mo, d)
    else none
  | _ => none

/-- One row of `schedule.csv` as `csv.DictReader` hands it to the app.
`team`/`stakeholder` columns are `Option String` because `dict.get` yields
`None` when a column is missing; `debate` and `dateTime` are the `'Debate'`
and `'Date and Time'` fields (`""` when absent). -/
structure ScheduleRow where
  debate : String
  dateTime : String
  resolution : String
  team1 : Option String
  team2 : Option String
  team3 : Option String
  team4 : Option String
  stakeholder1 : Option String
  stakeholder2 : Option String
  stakeholder3 : Option String
  stakeholder4 : Option String
deriving DecidableEq, Repr

/-- `debate_row.get(f'Team {i}')`. -/
def ScheduleRow.team (r : ScheduleRow) : Nat → Option String
  | 1 => r.team1
  | 2 => r.team2
  | 3 => r.team3
  | 4 => r.team4
  | _ => none

/-- `debate_row.get(f'Stakeholder {i}')`. -/
def ScheduleRow.stakeholder (r : ScheduleRow) : Nat → Option String
  | 1 => r.stakeholder1
  | 2 => r.stakeholder2
  | 3 => r.stakeholder3
  | 4 => r.stakeholder4
  | _ => none

/-- One row of `submissions.csv` (header
`Debate Number, Stakeholder, Team Name, Position, Submission Time`);
every field is the raw CSV string. -/
structure Submission where
  debateNumber : String
  stakeholder : String
  teamName : String
  position : String
  submissionTime : String
deriving DecidableEq, Repr

/-- The hard-coded `REVEAL_SCHEDULE` dictionary of `debate.py`
(year `DEBATE_YEAR = 2025`, all instants at midnight local time). -/
def REVEAL_SCHEDULE : List (String × Instant) :=
  [("Sep 26", ⟨2025, 9, 24, 0, 0⟩),
   ("Oct 10", ⟨2025, 10, 8, 0, 0⟩),
   ("Oct 24", ⟨2025, 10, 22, 0, 0⟩),
   ("Nov 07", ⟨2025, 11, 5, 0, 0⟩),
   ("Nov 21", ⟨2025, 11, 19, 0, 0⟩)]

/-- `get_reveal_date_for_debate(debate_row)` of `debate.py`, with the reveal
dictionary `m` passed explicitly (the source reads the global
`REVEAL_SCHEDULE`).  Result: `none` models the uncaught `IndexError` raised
by `date_str.split()[0]` on a non-empty all-whitespace date string;
`some none` models returning `None`; `some (some t)` a found instant. -/
def get_reveal_date_for_debate (m : List (String × Instant)) (row : ScheduleRow) :
    Option (Option Instant) :=
  let date_str := row.dateTime
  if date_str = "" then some none
  else
    match pySplitWS date_str with
    | [] => none
    | t0 :: rest =>
      match parseYMD t0 with
      | some (_, mo, d) => some (m.lookup (keyOf mo d))
      | none =>
        match parseBD (t0 :: rest) with
        | some (mo, d) => some (m.lookup (keyOf mo d))
        | none => some none

/-- `load_data_from_csv(filepath, headers)` for the submissions file.
The file system is `Option (List Submission)` (`none` = file absent).
Returns the parsed rows together with the file state afterwards: when the
file is absent and `headers` are given, a header-only file (`some []`) is
created; when absent with no headers, nothing is created. -/
def load_data_from_csv (file : Option (List Submission))
    (headers : Option (List String)) : List Submission × Option (List Submission) :=
  match file with
  | some rows => (rows, some rows)
  | none =>
    match headers with
    | some _ => ([], some [])
    | none => ([], none)

/-- The `SUBMISSION_HEADERS` constant of `debate.py`. -/
def SUBMISSION_HEADERS : List String :=
  ["Debate Number", "Stakeholder", "Team Name", "Position", "Submission Time"]

/-- `load_submissions()`: reads `submissions.csv`, creating it header-only
when absent. -/
def load_submissions (file : Option (List Submission)) :
    List Submission × Option (List Submission) :=
  load_data_from_csv file (some SUBMISSION_HEADERS)

/-- The scan-and-update loop of `save_submission`: walk the loaded rows,
overwrite the first row with `int(row['Debate Number']) == debate_num` and
`row['Stakeholder'] == stakeholder` in place, otherwise append a fresh row
at the end.  `none` models the uncaught `ValueError` of
`int(sub['Debate Number'])` on a malformed stored row. -/
def upsertScan (debate_num : Int) (stakeholder team_name position time : String) :
    List Submission → Option (List Submission)
  | [] => some [⟨intToStr debate_num, stakeholder, team_name, position, time⟩]
  | s :: rest => do
    let a ← pyInt s.debateNumber
    if a = debate_num ∧ s.stakeholder = stakeholder then
      some ({ s with teamName := team_name, position := position,
                     submissionTime := time } :: rest)
    else
      (upsertScan debate_num stakeholder team_name position time rest).map (s :: ·)

/-- `save_submission(debate_num, stakeholder, team_name, position)`: under the
lock, load the table (creating the file if absent), upsert by
`(int(Debate Number), Stakeholder)`, and rewrite the whole file.  `time` is
the `datetime.now(...)` timestamp string, passed explicitly.  Returns the
file contents after the rewrite, `none` on an uncaught exception. -/
def save_submission (debate_num : Int) (stakeholder team_name position time : String)
    (file : Option (List Submission)) : Option (List Submission) :=
  upsertScan debate_num stakeholder team_name position time
    (load_data_from_csv file (some SUBMISSION_HEADERS)).fst

/-- The "Reset All Submissions" instructor action: delete the submissions
file if it exists. -/
def reset_all_submissions (_file : Option (List Submission)) :
    Option (List Submission) := none

/-- `find_debates_for_team(team_name, schedule)`: empty query short-circuits
to no matches; otherwise every slot of every row whose
`.strip().lower()`-normalized team equals the normalized query is collected
together with its stakeholder role. -/
def find_debates_for_team (team_name : String) (schedule : List ScheduleRow) :
    List (ScheduleRow × Option String) :=
  if team_name = "" then []
  else
    schedule.flatMap (fun row =>
      [1, 2, 3, 4].filterMap (fun i =>
        if pyStripLower ((row.team i).getD "") = pyStripLower team_name then
          some (row, row.stakeholder i)
        else none))

/-- The visible-position label computed by the "View Full Schedule" loop. -/
inductive Label where
  | empty : Label
  | configError : Label
  | pending : Instant → Label
  | revealed : String → Label
  | notSubmitted : Label
deriving DecidableEq, Repr

/-- The string the schedule page writes into the `Position i` cell for each
label (`empty` is the source file's literal dash text). -/
def Label.render : Label → String
  | .empty => "â€”"
  | .configError => "CONFIG ERROR"
  | .pending rd => "Reveals " ++ keyOf rd.month rd.day
  | .revealed p => p
  | .notSubmitted => "Not Submitted"

/-- The generator
`next((s for s in submissions_data if int(s['Debate Number']) == int(debate['Debate']) and s['Stakeholder'] == stakeholder_name), None)`:
first matching submission, `some none` when none matches, outer `none` when
an `int()` conversion raises.  Note both `int()` calls are evaluated for
every scanned row before the comparison, so a malformed `debate['Debate']`
only raises when at least one submission row is scanned. -/
def findSubmission (subs : List Submission) (debateField : String)
    (stakeholderName : Option String) : Option (Option Submission) :=
  match subs with
  | [] => some none
  | s :: rest => do
    let a ← pyInt s.debateNumber
    let b ← pyInt debateField
    if a = b ∧ pyEqOpt s.stakeholder stakeholderName then some (some s)
    else findSubmission rest debateField stakeholderName

/-- The per-slot body of the "View Full Schedule" loop (lines 153-167 of
`debate.py`), as the query-layer function `visiblePosition`: slot `i` of
`row` at instant `now`, over submissions `subs` and reveal dictionary `m`.
`none` models an uncaught exception killing the interaction. -/
def visiblePosition (m : List (String × Instant)) (subs : List Submission)
    (now : Instant) (row : ScheduleRow) (i : Nat) : Option Label :=
  if pyTruthy (row.team i) then
    match get_reveal_date_for_debate m row with
    | none => none
    | some none => some .configError
    | some (some rd) =>
      if now.key < rd.key then some (.pending rd)
      else
        match findSubmission subs row.debate (row.stakeholder i) with
        | none => none
        | some none => some .notSubmitted
        | some (some s) => some (.revealed s.position)
  else some .empty

/-- Reveal Policy following the specification's words (spec section 4.2), for
comparison with the source's `get_reveal_date_for_debate`: extract the date
portion, try `YYYY-MM-DD` then the `"Mon DD"` fallback, return `None` when
both parses fail, else reduce to the year-independent `"Mon DD"` key and
look it up.  The spec describes a total function with no failure other than
returning `None`. -/
def specRevealInstant (m : List (String × Instant)) (dateStr : String) :
    Option Instant :=
  let tokens := pySplitWS dateStr
  match parseYMD (tokens.headD "") with
  | some (_, mo, d) => m.lookup (keyOf mo d)
  | none =>
    match parseBD tokens with
    | some (mo, d) => m.lookup (keyOf mo d)
    | none => none

/-- Every stored row's `Debate Number` survives Python's `int()`
(no row makes the scan raise `ValueError`). -/
def ParsesAll (subs : List Submission) : Bool :=
  subs.all (fun r => (pyInt r.debateNumber).isSome)

/-- Does `r` belong to submission key `(d, st)` under the code's comparison
(`int` equality on the number, exact string equality on the stakeholder)? -/
def matchesKey (d : Int) (st : String) (r : Submission) : Bool :=
  pyInt r.debateNumber == some d && r.stakeholder == st

/-- One `save_submission` call's arguments (the timestamp the call would
write is carried explicitly). -/
structure UpsertCall where
  debateNum : Int
  stakeholder : String
  teamName : String
  position : String
  time : String
deriving DecidableEq, Repr

/-- The record a call writes when it appends (Python writes
`str(debate_num)` into the CSV). -/
def canonRec (c : UpsertCall) : Submission :=
  ⟨intToStr c.debateNum, c.stakeholder, c.teamName, c.position, c.time⟩

/-- Run a sequence of `save_submission` calls against table contents `s`;
`none` as soon as one call raises. -/
def applyCalls : List UpsertCall → List Submission → Option (List Submission)
  | [], s => some s
  | c :: cs, s =>
    match save_submission c.debateNum c.stakeholder c.teamName c.position c.time (some s) with
    | none => none
    | some s' => applyCalls cs s'

/-- The most recent call in `calls` (applied left to right) whose key is
`(d, st)`. -/
def lastCallFor (d : Int) (st : String) : List UpsertCall → Option UpsertCall
  | [] => none
  | c :: cs =>
    match lastCallFor d st cs with
    | some c' => some c'
    | none => if c.debateNum = d ∧ c.stakeholder = st then some c else none

/-- Erase the one field the idempotence claim excepts. -/
def dropTime (r : Submission) : Submission := { r with submissionTime := "" }

theorem parseNatAux_append (xs ys : List Char) (acc : Nat) :
    parseNatAux (xs ++ ys) acc =
      (parseNatAux xs acc).bind (fun a => parseNatAux ys a) := by
  induction xs generalizing acc with
  | nil => simp [parseNatAux]
  | cons c cs ih =>
    simp only [List.cons_append, parseNatAux]
    cases charVal c with
    | none => simp
    | some v => simp [ih]

theorem charVal_digitChar (d : Nat) (h : d < 10) :
    charVal (digitChar d) = some d := by
  interval_cases d <;> decide

theorem digitChar_props (d : Nat) (h : d < 10) :
    (digitChar d).isWhitespace = false ∧ digitChar d ≠ '-' ∧ digitChar d ≠ '+' := by
  interval_cases d <;> decide

theorem natToStrAux_digits (fuel n : Nat) (h : n < fuel) :
    ∀ c ∈ natToStrAux fuel n, ∃ d, d < 10 ∧ c = digitChar d := by
  induction fuel generalizing n with
  | zero => omega
  | succ fuel ih =>
    intro c hc
    by_cases hn : n < 10
    · simp [natToStrAux, hn] at hc
      exact ⟨n, hn, hc⟩
    · simp only [natToStrAux, if_neg hn, List.mem_append, List.mem_singleton] at hc
      rcases hc with hc | hc
      · exact ih (n / 10) (by omega) c hc
      · exact ⟨n % 10, by omega, hc⟩

theorem natToStrAux_ne_nil (fuel n : Nat) (h : n < fuel) :
    natToStrAux fuel n ≠ [] := by
  cases fuel with
  | zero => omega
  | succ fuel =>
    by_cases hn : n < 10 <;> simp [natToStrAux, hn]

theorem parseNatAux_natToStrAux (fuel n : Nat) (h : n < fuel) (acc : Nat) :
    ∃ k, parseNatAux (natToStrAux fuel n) acc = some (acc * 10 ^ k + n) := by
  induction fuel generalizing n acc with
  | zero => omega
  | succ fuel ih =>
    by_cases hn : n < 10
    · refine ⟨1, ?_⟩
      simp [natToStrAux, hn, parseNatAux, charVal_digitChar n hn]
    · obtain ⟨k, hk⟩ := ih (n / 10) (by omega) acc
      refine ⟨k + 1, ?_⟩
      rw [natToStrAux, if_neg hn, parseNatAux_append, hk]
      simp only [parseNatAux, charVal_digitChar (n % 10) (by omega)]
      have hdm : 10 * (n / 10) + n % 10 = n := Nat.div_add_mod n 10
      have harith : (acc * 10 ^ k + n / 10) * 10 + n % 10 = acc * 10 ^ (k + 1) + n := by
        calc (acc * 10 ^ k + n / 10) * 10 + n % 10
            = acc * (10 ^ k * 10) + (10 * (n / 10) + n % 10) := by ring
          _ = acc * 10 ^ (k + 1) + n := by rw [hdm, pow_succ]
      simp [harith]

theorem natChars_ne_nil (n : Nat) : natChars n ≠ [] :=
  natToStrAux_ne_nil (n + 1) n (by omega)

theorem parseNatBE_natChars (n : Nat) : parseNatBE (natChars n) = some n := by
  obtain ⟨k, hk⟩ := parseNatAux_natToStrAux (n + 1) n (by omega) 0
  rw [parseNatBE, if_neg (natChars_ne_nil n)]
  simpa using hk

theorem dropWhile_of_all (p : Char → Bool) (l : List Char)
    (h : ∀ c ∈ l, p c = false) : l.dropWhile p = l := by
  cases l with
  | nil => rfl
  | cons a l => simp [List.dropWhile, h a (by simp)]

theorem stripWS_of_all (cs : List Char)
    (h : ∀ c ∈ cs, c.isWhitespace = false) : stripWS cs = cs := by
  unfold stripWS
  rw [dropWhile_of_all _ _ h,
      dropWhile_of_all _ _ (fun c hc => h c (List.mem_reverse.mp hc)),
      List.reverse_reverse]

theorem natChars_not_ws (n : Nat) :
    ∀ c ∈ natChars n, c.isWhitespace = false := by
  intro c hc
  obtain ⟨d, hd, rfl⟩ := natToStrAux_digits (n + 1) n (by omega) c hc
  exact (digitChar_props d hd).1

theorem pyIntCore_natChars (m : Nat) :
    pyIntCore (natChars m) = some (Int.ofNat m) := by
  rcases hcs : natChars m with _ | ⟨c, rest⟩
  · exact absurd hcs (natChars_ne_nil _)
  · obtain ⟨d, hd, rfl⟩ := natToStrAux_digits (m + 1) m (Nat.lt_succ_self m) c
      (by show c ∈ natChars m; rw [hcs]; simp)
    simp only [pyIntCore]
    rw [if_neg (digitChar_props d hd).2.1, if_neg (digitChar_props d hd).2.2,
        ← hcs, parseNatBE_natChars]
    rfl

theorem pyInt_intToStr (n : Int) : pyInt (intToStr n) = some n := by
  by_cases hn : n < 0
  · have hm : stripWS ('-' :: natChars (-n).toNat) = '-' :: natChars (-n).toNat := by
      refine stripWS_of_all _ ?_
      intro c hc
      rcases List.mem_cons.mp hc with rfl | hc
      · decide
      · exact natChars_not_ws _ c hc
    rw [intToStr, if_pos hn, pyInt]
    simp only [hm, pyIntCore, if_pos rfl]
    rw [parseNatBE_natChars]
    simp only [Option.map_some', Int.ofNat_eq_natCast, if_true]
    congr 1
    omega
  · have hm : stripWS (natChars n.toNat) = natChars n.toNat :=
      stripWS_of_all _ (natChars_not_ws _)
    rw [intToStr, if_neg hn, pyInt]
    simp only [hm, pyIntCore_natChars, Int.ofNat_eq_natCast]
    congr 1
    omega

/-- Every stored row's `Debate Number` is the canonical decimal print of an
integer (true of every row the app itself has written). -/
def Canon (s : List Submission) : Prop :=
  ∀ r ∈ s, ∃ n : Int, r.debateNumber = intToStr n

/-- At most one stored row per `(int(Debate Number), Stakeholder)` key. -/
def UniqKeys (s : List Submission) : Prop :=
  ∀ d st, (s.filter (matchesKey d st)).length ≤ 1

theorem matchesKey_update (d : Int) (st : String) (r : Submission) (tn p t : String) :
    matchesKey d st { r with teamName := tn, position := p, submissionTime := t } =
      matchesKey d st r := rfl

theorem matchesKey_true_iff (r : Submission) (m : Int)
    (h : pyInt r.debateNumber = some m) (d : Int) (st : String) :
    matchesKey d st r = true ↔ (m = d ∧ r.stakeholder = st) := by
  simp [matchesKey, h]

theorem matchesKey_canonRec_iff (c : UpsertCall) (d : Int) (st : String) :
    matchesKey d st (canonRec c) = true ↔ (c.debateNum = d ∧ c.stakeholder = st) :=
  matchesKey_true_iff (canonRec c) c.debateNum (pyInt_intToStr c.debateNum) d st

theorem upsertScan_cons (d : Int) (st tn p t : String) (r : Submission)
    (rest : List Submission) (m : Int) (h : pyInt r.debateNumber = some m) :
    upsertScan d st tn p t (r :: rest) =
      if m = d ∧ r.stakeholder = st then
        some ({ r with teamName := tn, position := p, submissionTime := t } :: rest)
      else (upsertScan d st tn p t rest).map (r :: ·) := by
  simp only [upsertScan, h]
  rfl

theorem upsertScan_spec (d : Int) (st tn p t : String) :
    ∀ s : List Submission, Canon s → UniqKeys s →
    ∃ s', upsertScan d st tn p t s = some s' ∧ Canon s' ∧ UniqKeys s' ∧
      s'.filter (matchesKey d st) = [⟨intToStr d, st, tn, p, t⟩] ∧
      ∀ d' st', ¬(d' = d ∧ st' = st) →
        s'.filter (matchesKey d' st') = s.filter (matchesKey d' st') := by
  intro s
  induction s with
  | nil =>
    intro _ _
    have hcr : (⟨intToStr d, st, tn, p, t⟩ : Submission) = canonRec ⟨d, st, tn, p, t⟩ := rfl
    refine ⟨[⟨intToStr d, st, tn, p, t⟩], rfl, ?_, ?_, ?_, ?_⟩
    · intro r hr
      simp at hr
      exact ⟨d, by rw [hr]⟩
    · intro d' st'
      apply le_trans (List.length_filter_le _ _)
      simp
    · have : matchesKey d st (canonRec ⟨d, st, tn, p, t⟩) = true :=
        (matchesKey_canonRec_iff _ d st).mpr ⟨rfl, rfl⟩
      rw [hcr]
      simp [List.filter_cons, this]
    · intro d' st' hne
      have : matchesKey d' st' (canonRec ⟨d, st, tn, p, t⟩) = false := by
        rw [Bool.eq_false_iff]
        intro hk
        obtain ⟨h1, h2⟩ := (matchesKey_canonRec_iff _ d' st').mp hk
        exact hne ⟨h1.symm, h2.symm⟩
      rw [hcr]
      simp [List.filter_cons, this]
  | cons r rest ih =>
    intro hc hu
    obtain ⟨m, hm⟩ := hc r (List.mem_cons_self r rest)
    have hpy : pyInt r.debateNumber = some m := by rw [hm]; exact pyInt_intToStr m
    by_cases hmatch : m = d ∧ r.stakeholder = st
    · -- the scan finds the record and overwrites it in place
      have hr : matchesKey d st r = true := (matchesKey_true_iff r m hpy d st).mpr hmatch
      have hrest : rest.filter (matchesKey d st) = [] := by
        have h1 := hu d st
        rw [List.filter_cons_of_pos hr] at h1
        simp only [List.length_cons] at h1
        exact List.length_eq_zero.mp (by omega)
      have hother : ∀ d' st', ¬(d' = d ∧ st' = st) → matchesKey d' st' r = false := by
        intro d' st' hne
        rw [Bool.eq_false_iff]
        intro hk
        obtain ⟨h1, h2⟩ := (matchesKey_true_iff r m hpy d' st').mp hk
        exact hne ⟨by omega, by rw [← h2, hmatch.2]⟩
      refine ⟨{ r with teamName := tn, position := p, submissionTime := t } :: rest,
        ?_, ?_, ?_, ?_, ?_⟩
      · rw [upsertScan_cons d st tn p t r rest m hpy, if_pos hmatch]
      · intro x hx
        rcases List.mem_cons.mp hx with rfl | hx
        · exact ⟨m, hm⟩
        · exact hc x (List.mem_cons_of_mem _ hx)
      · intro d' st'
        by_cases heq : d' = d ∧ st' = st
        · obtain ⟨rfl, rfl⟩ := heq
          rw [List.filter_cons_of_pos (by rw [matchesKey_update]; exact hr), hrest]
          simp
        · rw [List.filter_cons_of_neg
            (by rw [matchesKey_update, hother d' st' heq]; simp)]
          have h1 := hu d' st'
          rw [List.filter_cons_of_neg (by rw [hother d' st' heq]; simp)] at h1
          exact h1
      · rw [List.filter_cons_of_pos (by rw [matchesKey_update]; exact hr), hrest]
        have hrd : r.debateNumber = intToStr d := by rw [hm, hmatch.1]
        have hrs : r.stakeholder = st := hmatch.2
        cases r
        simp_all
      · intro d' st' hne
        rw [List.filter_cons_of_neg
            (by rw [matchesKey_update, hother d' st' hne]; simp),
          List.filter_cons_of_neg (by rw [hother d' st' hne]; simp)]
    · -- no match here: keep `r`, recurse
      have hcr : Canon rest := fun x hx => hc x (List.mem_cons_of_mem _ hx)
      have hur : UniqKeys rest := by
        intro d' st'
        have h1 := hu d' st'
        by_cases hmr : matchesKey d' st' r = true
        · rw [List.filter_cons_of_pos hmr] at h1
          simp only [List.length_cons] at h1
          omega
        · rw [List.filter_cons_of_neg (by simpa using hmr)] at h1
          exact h1
      obtain ⟨rest', hscan, hcan', huniq', hkey', hother'⟩ := ih hcr hur
      have hno : matchesKey d st r = false := by
        rw [Bool.eq_false_iff]
        intro hk
        exact hmatch ((matchesKey_true_iff r m hpy d st).mp hk)
      refine ⟨r :: rest', ?_, ?_, ?_, ?_, ?_⟩
      · rw [upsertScan_cons d st tn p t r rest m hpy, if_neg hmatch, hscan]
        rfl
      · intro x hx
        rcases List.mem_cons.mp hx with rfl | hx
        · exact ⟨m, hm⟩
        · exact hcan' x hx
      · intro d' st'
        by_cases hmr : matchesKey d' st' r = true
        · have heq : ¬(d' = d ∧ st' = st) := by
            intro ⟨h1, h2⟩
            subst h1; subst h2
            rw [hmr] at hno
            simp at hno
          rw [List.filter_cons_of_pos hmr, hother' d' st' heq]
          have h1 := hu d' st'
          rw [List.filter_cons_of_pos hmr] at h1
          exact h1
        · rw [List.filter_cons_of_neg (by simpa using hmr)]
          by_cases heq : d' = d ∧ st' = st
          · obtain ⟨rfl, rfl⟩ := heq
            rw [hkey']
            simp
          · rw [hother' d' st' heq]
            exact hur d' st'
      · rw [List.filter_cons_of_neg (by simp [hno]), hkey']
      · intro d' st' hne
        by_cases hmr : matchesKey d' st' r = true
        · rw [List.filter_cons_of_pos hmr, List.filter_cons_of_pos hmr,
            hother' d' st' hne]
        · rw [List.filter_cons_of_neg (by simpa using hmr),
            List.filter_cons_of_neg (by simpa using hmr), hother' d' st' hne]

theorem applyCalls_spec (calls : List UpsertCall) :
    ∀ s : List Submission, Canon s → UniqKeys s →
    ∃ final, applyCalls calls s = some final ∧ Canon final ∧ UniqKeys final ∧
      ∀ d st, final.filter (matchesKey d st) =
        (match lastCallFor d st calls with
         | some c => [canonRec c]
         | none => s.filter (matchesKey d st)) := by
  induction calls with
  | nil =>
    intro s hc hu
    exact ⟨s, rfl, hc, hu, fun d st => rfl⟩
  | cons c cs ih =>
    intro s hc hu
    obtain ⟨s1, hscan, hc1, hu1, hkey1, hother1⟩ :=
      upsertScan_spec c.debateNum c.stakeholder c.teamName c.position c.time s hc hu
    obtain ⟨final, happ, hcf, huf, hfilt⟩ := ih s1 hc1 hu1
    refine ⟨final, ?_, hcf, huf, ?_⟩
    · show (match save_submission c.debateNum c.stakeholder c.teamName c.position
          c.time (some s) with
        | none => none
        | some s' => applyCalls cs s') = some final
      show (match upsertScan c.debateNum c.stakeholder c.teamName c.position c.time s with
        | none => none
        | some s' => applyCalls cs s') = some final
      rw [hscan]
      exact happ
    · intro d st
      rw [hfilt d st]
      show (match lastCallFor d st cs with
          | some c' => [canonRec c']
          | none => s1.filter (matchesKey d st)) =
        (match (match lastCallFor d st cs with
          | some c' => some c'
          | none => if c.debateNum = d ∧ c.stakeholder = st then some c else none) with
          | some c' => [canonRec c']
          | none => s.filter (matchesKey d st))
      cases lastCallFor d st cs with
      | some c' => rfl
      | none =>
        by_cases hk : c.debateNum = d ∧ c.stakeholder = st
        · rw [if_pos hk]
          obtain ⟨h1, h2⟩ := hk
          subst h1; subst h2
          rw [hkey1]
          rfl
        · rw [if_neg hk]
          exact hother1 d st (fun ⟨h1, h2⟩ => hk ⟨h1.symm, h2.symm⟩)

theorem lastCallFor_key (d : Int) (st : String) :
    ∀ calls : List UpsertCall, ∀ c, lastCallFor d st calls = some c →
      c.debateNum = d ∧ c.stakeholder = st := by
  intro calls
  induction calls with
  | nil => intro c h; cases h
  | cons c0 cs ih =>
    intro c h
    rw [lastCallFor] at h
    cases hcs : lastCallFor d st cs with
    | some c' =>
      rw [hcs] at h
      cases h
      exact ih c hcs
    | none =>
      rw [hcs] at h
      by_cases hk : c0.debateNum = d ∧ c0.stakeholder = st
      · rw [if_pos hk] at h
        cases h
        exact hk
      · rw [if_neg hk] at h
        cases h

theorem findSubmission_cons (r : Submission) (rest : List Submission) (dbf : String)
    (skn : Option String) (a b : Int) (ha : pyInt r.debateNumber = some a)
    (hb : pyInt dbf = some b) :
    findSubmission (r :: rest) dbf skn =
      if a = b ∧ pyEqOpt r.stakeholder skn then some (some r)
      else findSubmission rest dbf skn := by
  simp only [findSubmission, ha, hb]
  rfl

theorem upsertScan_twice (d : Int) (st tn p t t' : String) :
    ∀ s s1, upsertScan d st tn p t s = some s1 →
      ∃ s2, upsertScan d st tn p t' s1 = some s2 ∧
        s2.map dropTime = s1.map dropTime := by
  intro s
  induction s with
  | nil =>
    intro s1 h
    rw [upsertScan] at h
    cases h
    rw [upsertScan_cons d st tn p t' _ [] d (pyInt_intToStr d), if_pos ⟨rfl, rfl⟩]
    exact ⟨_, rfl, rfl⟩
  | cons r rest ih =>
    intro s1 h
    cases hpy : pyInt r.debateNumber with
    | none => simp [upsertScan, hpy] at h
    | some a =>
      rw [upsertScan_cons d st tn p t r rest a hpy] at h
      by_cases hcond : a = d ∧ r.stakeholder = st
      · rw [if_pos hcond] at h
        cases h
        rw [upsertScan_cons d st tn p t'
            { r with teamName := tn, position := p, submissionTime := t }
            rest a hpy,
          if_pos hcond]
        exact ⟨_, rfl, rfl⟩
      · rw [if_neg hcond] at h
        cases hrest : upsertScan d st tn p t rest with
        | none => rw [hrest] at h; cases h
        | some rest1 =>
          rw [hrest] at h
          cases h
          obtain ⟨rest2, h2, hmap⟩ := ih rest1 hrest
          rw [upsertScan_cons d st tn p t' r rest1 a hpy, if_neg hcond, h2]
          exact ⟨r :: rest2, rfl, by simp [hmap]⟩

theorem upsertScan_no_match (d : Int) (st tn p t : String) :
    ∀ s, (∀ r ∈ s, (pyInt r.debateNumber).isSome = true) →
      (∀ r ∈ s, ¬(pyInt r.debateNumber = some d ∧ r.stakeholder = st)) →
      upsertScan d st tn p t s = some (s ++ [⟨intToStr d, st, tn, p, t⟩]) := by
  intro s
  induction s with
  | nil => intro _ _; rfl
  | cons r rest ih =>
    intro hps hno
    obtain ⟨a, hpy⟩ := Option.isSome_iff_exists.mp (hps r (List.mem_cons_self r rest))
    have hcond : ¬(a = d ∧ r.stakeholder = st) := by
      intro ⟨h1, h2⟩
      exact hno r (List.mem_cons_self r rest) ⟨by rw [hpy, h1], h2⟩
    rw [upsertScan_cons d st tn p t r rest a hpy, if_neg hcond,
      ih (fun x hx => hps x (List.mem_cons_of_mem _ hx))
        (fun x hx => hno x (List.mem_cons_of_mem _ hx))]
    rfl

theorem findSubmission_no_match (d : Int) (st dbf : String)
    (hdb : pyInt dbf = some d) :
    ∀ subs, (∀ r ∈ subs, (pyInt r.debateNumber).isSome = true) →
      (∀ r ∈ subs, ¬(pyInt r.debateNumber = some d ∧ r.stakeholder = st)) →
      findSubmission subs dbf (some st) = some none := by
  intro subs
  induction subs with
  | nil => intro _ _; rfl
  | cons r rest ih =>
    intro hps hno
    obtain ⟨a, hpy⟩ := Option.isSome_iff_exists.mp (hps r (List.mem_cons_self r rest))
    have hcond : ¬(a = d ∧ pyEqOpt r.stakeholder (some st) = true) := by
      intro ⟨h1, h2⟩
      simp only [pyEqOpt, beq_iff_eq] at h2
      exact hno r (List.mem_cons_self r rest) ⟨by rw [hpy, h1], h2⟩
    rw [findSubmission_cons r rest dbf (some st) a d hpy hdb, if_neg ?_]
    · exact ih (fun x hx => hps x (List.mem_cons_of_mem _ hx))
        (fun x hx => hno x (List.mem_cons_of_mem _ hx))
    · intro ⟨h1, h2⟩
      exact hcond ⟨h1, h2⟩

theorem findSubmission_after_upsert (d : Int) (st tn p t dbf : String)
    (hdb : pyInt dbf = some d) :
    ∀ subs subs1, upsertScan d st tn p t subs = some subs1 →
      ∃ r0, findSubmission subs1 dbf (some st) = some (some r0) ∧
        r0.position = p ∧ r0.teamName = tn := by
  intro subs
  induction subs with
  | nil =>
    intro subs1 h
    rw [upsertScan] at h
    cases h
    rw [findSubmission_cons _ [] dbf (some st) d d (pyInt_intToStr d) hdb,
      if_pos ⟨rfl, by simp [pyEqOpt]⟩]
    exact ⟨_, rfl, rfl, rfl⟩
  | cons r rest ih =>
    intro subs1 h
    cases hpy : pyInt r.debateNumber with
    | none => simp [upsertScan, hpy] at h
    | some a =>
      rw [upsertScan_cons d st tn p t r rest a hpy] at h
      by_cases hcond : a = d ∧ r.stakeholder = st
      · rw [if_pos hcond] at h
        cases h
        rw [findSubmission_cons
            { r with teamName := tn, position := p, submissionTime := t }
            rest dbf (some st) a d hpy hdb,
          if_pos ⟨hcond.1, by simp [pyEqOpt, hcond.2]⟩]
        exact ⟨_, rfl, rfl, rfl⟩
      · rw [if_neg hcond] at h
        cases hrest : upsertScan d st tn p t rest with
        | none => rw [hrest] at h; cases h
        | some rest1 =>
          rw [hrest] at h
          cases h
          obtain ⟨r0, hf, hp0, ht0⟩ := ih rest1 hrest
          refine ⟨r0, ?_, hp0, ht0⟩
          rw [findSubmission_cons r rest1 dbf (some st) a d hpy hdb, if_neg ?_, hf]
          intro ⟨h1, h2⟩
          simp only [pyEqOpt, beq_iff_eq] at h2
          exact hcond ⟨h1, h2⟩

theorem visiblePosition_true_some (m : List (String × Instant))
    (subs : List Submission) (now : Instant) (row : ScheduleRow) (i : Nat)
    (rd : Instant) (h1 : pyTruthy (row.team i) = true)
    (h2 : get_reveal_date_for_debate m row = some (some rd)) :
    visiblePosition m subs now row i =
      if now.key < rd.key then some (Label.pending rd)
      else
        match findSubmission subs row.debate (row.stakeholder i) with
        | none => none
        | some none => some Label.notSubmitted
        | some (some s) => some (Label.revealed s.position) := by
  rw [visiblePosition, if_pos h1, h2]

theorem visiblePosition_configError_of (m : List (String × Instant))
    (subs : List Submission) (now : Instant) (row : ScheduleRow) (i : Nat)
    (h1 : pyTruthy (row.team i) = true)
    (h2 : get_reveal_date_for_debate m row = some none) :
    visiblePosition m subs now row i = some Label.configError := by
  rw [visiblePosition, if_pos h1, h2]

/-- C2: for a slot with an assigned team and a determined reveal instant, at
any `now` strictly before that instant the visible-position label is
`PENDING` carrying the reveal instant — never `REVEALED` or `NOT_SUBMITTED` —
no matter what the submission store contains. -/
theorem visiblePosition_pending_before_reveal (m : List (String × Instant))
    (subs : List Submission) (now : Instant) (row : ScheduleRow) (i : Nat)
    (rd : Instant) (h1 : pyTruthy (row.team i) = true)
    (h2 : get_reveal_date_for_debate m row = some (some rd))
    (h3 : now.key < rd.key) :
    visiblePosition m subs now row i = some (Label.pending rd) := by
  rw [visiblePosition_true_some m subs now row i rd h1 h2, if_pos h3]

theorem visiblePosition_pending_before_reveal_witness :
    visiblePosition REVEAL_SCHEDULE
        [⟨"1", "Government", "Team A", "For", "t"⟩] ⟨2025, 9, 22, 0, 0⟩
        ⟨"1", "2025-09-26 10:10", "R", some "Team A", none, none, none,
          some "Government", none, none, none⟩ 1 =
      some (Label.pending ⟨2025, 9, 24, 0, 0⟩) :=
  visiblePosition_pending_before_reveal REVEAL_SCHEDULE
    [⟨"1", "Government", "Team A", "For", "t"⟩] ⟨2025, 9, 22, 0, 0⟩
    ⟨"1", "2025-09-26 10:10", "R", some "Team A", none, none, none,
      some "Government", none, none, none⟩ 1 ⟨2025, 9, 24, 0, 0⟩
    (by decide) (by decide) (by decide)

/-- C3: for a slot with an assigned team and a determined reveal instant, at
any `now` at or after that instant: with no submission stored for the slot's
`(debateId, stakeholder)` key the label is `NOT_SUBMITTED`, and after
`save_submission` has upserted position `p` for that key the label is
`REVEALED(p)`.  The well-formedness hypotheses (`ParsesAll`, a parseable
`Debate` field) keep the scan's `int()` conversions from raising. -/
theorem visiblePosition_after_reveal (m : List (String × Instant))
    (subs : List Submission) (now : Instant) (row : ScheduleRow) (i : Nat)
    (rd : Instant) (d : Int) (sk : String)
    (h1 : pyTruthy (row.team i) = true)
    (h2 : get_reveal_date_for_debate m row = some (some rd))
    (h3 : rd.key ≤ now.key)
    (h4 : pyInt row.debate = some d)
    (h5 : ParsesAll subs = true)
    (hsk : row.stakeholder i = some sk) :
    ((∀ r ∈ subs, ¬(pyInt r.debateNumber = some d ∧ r.stakeholder = sk)) →
      visiblePosition m subs now row i = some Label.notSubmitted) ∧
    (∀ tn p t subs', save_submission d sk tn p t (some subs) = some subs' →
      visiblePosition m subs' now row i = some (Label.revealed p)) := by
  have hps : ∀ r ∈ subs, (pyInt r.debateNumber).isSome = true := by
    intro r hr
    exact List.all_eq_true.mp h5 r hr
  constructor
  · intro hno
    rw [visiblePosition_true_some m subs now row i rd h1 h2,
      if_neg (by omega), hsk,
      findSubmission_no_match d sk row.debate h4 subs hps hno]
  · intro tn p t subs' hsave
    obtain ⟨r0, hf, hp0, _⟩ :=
      findSubmission_after_upsert d sk tn p t row.debate h4 subs subs' hsave
    rw [visiblePosition_true_some m subs' now row i rd h1 h2,
      if_neg (by omega), hsk, hf]
    show some (Label.revealed r0.position) = some (Label.revealed p)
    rw [hp0]

theorem visiblePosition_after_reveal_witness :
    visiblePosition REVEAL_SCHEDULE [] ⟨2025, 9, 25, 0, 0⟩
        ⟨"1", "2025-09-26 10:10", "R", some "Team A", none, none, none,
          some "Government", none, none, none⟩ 1 = some Label.notSubmitted ∧
    visiblePosition REVEAL_SCHEDULE
        [⟨"1", "Government", "Team A", "For", "ts"⟩] ⟨2025, 9, 25, 0, 0⟩
        ⟨"1", "2025-09-26 10:10", "R", some "Team A", none, none, none,
          some "Government", none, none, none⟩ 1 =
      some (Label.revealed "For") := by
  have h := visiblePosition_after_reveal REVEAL_SCHEDULE [] ⟨2025, 9, 25, 0, 0⟩
    ⟨"1", "2025-09-26 10:10", "R", some "Team A", none, none, none,
      some "Government", none, none, none⟩ 1 ⟨2025, 9, 24, 0, 0⟩ 1 "Government"
    (by decide) (by decide) (by decide) (by decide) (by decide) (by decide)
  exact ⟨h.1 (by simp), h.2 "Team A" "For" "ts"
    [⟨"1", "Government", "Team A", "For", "ts"⟩] (by decide)⟩

/-- C1: starting from an empty store, after any sequence of `save_submission`
calls, the table `load_submissions` returns contains exactly one record for
each upserted key `(debateId, stakeholder)` — the singleton `filter` — and
that record carries the team name, position and timestamp of the most recent
call for the key: last write wins, no history retained. -/
theorem save_submission_last_write_wins (calls : List UpsertCall) (d : Int)
    (st : String) (c : UpsertCall) (h : lastCallFor d st calls = some c) :
    ∃ final, applyCalls calls [] = some final ∧
      (load_submissions (some final)).fst.filter (matchesKey d st) = [canonRec c] := by
  obtain ⟨final, happ, _, _, hfilt⟩ := applyCalls_spec calls []
    (fun r hr => absurd hr (List.not_mem_nil r)) (fun d' st' => by simp)
  refine ⟨final, happ, ?_⟩
  show final.filter (matchesKey d st) = [canonRec c]
  rw [hfilt d st, h]

theorem save_submission_last_write_wins_witness :
    ∃ final,
      applyCalls [⟨1, "Government", "Team A", "For", "t1"⟩,
          ⟨1, "Government", "Team B", "Against", "t2"⟩] [] = some final ∧
      (load_submissions (some final)).fst.filter (matchesKey 1 "Government") =
        [⟨"1", "Government", "Team B", "Against", "t2"⟩] :=
  save_submission_last_write_wins
    [⟨1, "Government", "Team A", "For", "t1"⟩,
     ⟨1, "Government", "Team B", "Against", "t2"⟩] 1 "Government"
    ⟨1, "Government", "Team B", "Against", "t2"⟩ (by decide)

/-- C8: repeating a `save_submission` call with identical arguments leaves
the table unchanged up to the `Submission Time` field (the second call
overwrites the record the first one wrote, with the same team and position
and a fresh timestamp). -/
theorem upsert_idempotent_modulo_time (d : Int) (st tn p t t' : String)
    (s s1 : List Submission) (h : save_submission d st tn p t (some s) = some s1) :
    ∃ s2, save_submission d st tn p t' (some s1) = some s2 ∧
      s2.map dropTime = s1.map dropTime :=
  upsertScan_twice d st tn p t t' s s1 h

theorem upsert_idempotent_modulo_time_witness :
    ∃ s2, save_submission 1 "Government" "Team A" "For" "t2"
        (some [⟨"1", "Government", "Team A", "For", "t1"⟩]) = some s2 ∧
      s2.map dropTime = [⟨"1", "Government", "Team A", "For", "t1"⟩].map dropTime :=
  upsert_idempotent_modulo_time 1 "Government" "Team A" "For" "t1" "t2" []
    [⟨"1", "Government", "Team A", "For", "t1"⟩] (by decide)

/-- C10: the stakeholder half of the submission key is compared by exact
string equality in both the upsert scan and the query lookup, unlike the
trimmed case-insensitive team matching: if no stored record equals `st'`
exactly (for the debate), `save_submission` appends a second record instead
of replacing, and the query lookup finds nothing. -/
theorem stakeholder_exact_match (d : Int) (st' tn p t dbf : String)
    (subs : List Submission)
    (hp : ParsesAll subs = true)
    (hdb : pyInt dbf = some d)
    (hno : ∀ r ∈ subs, ¬(pyInt r.debateNumber = some d ∧ r.stakeholder = st')) :
    save_submission d st' tn p t (some subs) =
      some (subs ++ [⟨intToStr d, st', tn, p, t⟩]) ∧
    findSubmission subs dbf (some st') = some none := by
  have hps : ∀ r ∈ subs, (pyInt r.debateNumber).isSome = true :=
    fun r hr => List.all_eq_true.mp hp r hr
  exact ⟨upsertScan_no_match d st' tn p t subs hps hno,
    findSubmission_no_match d st' dbf hdb subs hps hno⟩

theorem stakeholder_exact_match_witness :
    pyStripLower "government" = pyStripLower " Government " ∧
    "government" ≠ "Government" ∧
    (save_submission 1 "government" "Team A" "Against" "t2"
        (some [⟨"1", "Government", "Team A", "For", "t1"⟩]) =
      some [⟨"1", "Government", "Team A", "For", "t1"⟩,
            ⟨"1", "government", "Team A", "Against", "t2"⟩] ∧
     findSubmission [⟨"1", "Government", "Team A", "For", "t1"⟩] "1"
        (some "government") = some none) :=
  ⟨by decide, by decide,
    stakeholder_exact_match 1 "government" "Team A" "Against" "t2" "1"
      [⟨"1", "Government", "Team A", "For", "t1"⟩]
      (by decide) (by decide) (by decide)⟩

/-- C6: when the submissions file does not exist, loading initializes it to a
header-only file and returns the empty table, both through
`load_data_from_csv` with headers and through `load_submissions`. -/
theorem load_submissions_creates_when_missing :
    load_data_from_csv none (some SUBMISSION_HEADERS) = ([], some []) ∧
    load_submissions none = ([], some []) :=
  ⟨rfl, rfl⟩

/-- C7: whatever the store held before, the reset action deletes the file,
and the next `load_submissions` returns the empty table and leaves the file
header-only. -/
theorem reset_then_load_empty :
    ∀ file : Option (List Submission),
      load_submissions (reset_all_submissions file) = ([], some []) :=
  fun _ => rfl

/-- C4 counterexample: on a non-empty, all-whitespace date string the code
does not return `None` for the reveal date — `date_str.split()[0]` raises an
uncaught `IndexError` (the outer `none`), so "returns None if both parses
fail" is false for this record. -/
theorem get_reveal_date_whitespace_crash :
    get_reveal_date_for_debate REVEAL_SCHEDULE
      ⟨"1", " ", "R", none, none, none, none, none, none, none, none⟩ = none := by
  decide

/-- C4 amended: for every record whose date string is empty or has at least
one whitespace-separated token, `get_reveal_date_for_debate` returns exactly
what the specification's reveal-policy algorithm (`specRevealInstant`)
computes — try `YYYY-MM-DD` on the first token, fall back to `"Mon DD"`,
`None` when both fail, else the year-independent `"Mon DD"`-keyed lookup —
and a `None` reveal date renders as CONFIG ERROR at every `now`.  (A
non-empty all-whitespace date string instead raises, see the
counterexample.) -/
theorem reveal_policy_matches_spec :
    (∀ (m : List (String × Instant)) (row : ScheduleRow),
      row.dateTime = "" ∨ pySplitWS row.dateTime ≠ [] →
      get_reveal_date_for_debate m row = some (specRevealInstant m row.dateTime)) ∧
    (∀ (m : List (String × Instant)) (subs : List Submission) (now : Instant)
      (row : ScheduleRow) (i : Nat), pyTruthy (row.team i) = true →
      get_reveal_date_for_debate m row = some none →
      visiblePosition m subs now row i = some Label.configError) := by
  constructor
  · intro m row h
    by_cases he : row.dateTime = ""
    · simp only [get_reveal_date_for_debate, specRevealInstant, he, if_true]
      rfl
    · rcases hne : pySplitWS row.dateTime with _ | ⟨t0, rest⟩
      · rcases h with h | h
        · exact absurd h he
        · exact absurd hne h
      · simp only [get_reveal_date_for_debate, specRevealInstant, hne, he,
          ite_false, List.headD_cons, if_neg he]
        rcases parseYMD t0 with _ | ⟨y, mo, d⟩
        · rcases parseBD (t0 :: rest) with _ | ⟨mo, d⟩ <;> rfl
        · rfl
  · exact fun m subs now row i h1 h2 =>
      visiblePosition_configError_of m subs now row i h1 h2

theorem reveal_policy_matches_spec_witness :
    get_reveal_date_for_debate REVEAL_SCHEDULE
        ⟨"1", "2025-12-31", "R", some "Team A", none, none, none,
          some "Government", none, none, none⟩ =
      some (specRevealInstant REVEAL_SCHEDULE "2025-12-31") ∧
    visiblePosition REVEAL_SCHEDULE [] ⟨2025, 1, 1, 0, 0⟩
        ⟨"1", "2025-12-31", "R", some "Team A", none, none, none,
          some "Government", none, none, none⟩ 1 = some Label.configError :=
  ⟨reveal_policy_matches_spec.1 REVEAL_SCHEDULE
      ⟨"1", "2025-12-31", "R", some "Team A", none, none, none,
        some "Government", none, none, none⟩ (Or.inr (by decide)),
   reveal_policy_matches_spec.2 REVEAL_SCHEDULE [] ⟨2025, 1, 1, 0, 0⟩
      ⟨"1", "2025-12-31", "R", some "Team A", none, none, none,
        some "Government", none, none, none⟩ 1 (by decide) (by decide)⟩

/-- C5 counterexample: a schedule row whose `Debate` field is the non-numeric
string "abc" does not degrade to a per-record CONFIG ERROR — once its reveal
deadline has passed and at least one submission row is scanned,
`int(debate['Debate'])` raises an uncaught `ValueError` (the `none` result),
halting the whole interaction. -/
theorem malformed_debate_id_crash :
    visiblePosition REVEAL_SCHEDULE [⟨"1", "X", "T", "For", "t"⟩]
      ⟨2025, 9, 25, 0, 0⟩
      ⟨"abc", "2025-09-26 10:10", "R", some "Team A", none, none, none,
        some "Government", none, none, none⟩ 1 = none := by
  decide

/-- C5 amended: the reader passes every row through unvalidated, and a row
whose date string tokenizes but fails both date parses degrades to the
per-record CONFIG ERROR label at every `now` without a fatal error; a
non-numeric or empty `Debate` identifier, however, crashes the interaction
once its deadline has passed and the store is non-empty (see the
counterexample). -/
theorem malformed_rows_degrade_to_configError :
    (∀ rows : List Submission, (load_submissions (some rows)).fst = rows) ∧
    (∀ (m : List (String × Instant)) (subs : List Submission) (now : Instant)
      (row : ScheduleRow) (i : Nat) (t0 : String) (rest : List String),
      pyTruthy (row.team i) = true →
      pySplitWS row.dateTime = t0 :: rest →
      parseYMD t0 = none →
      parseBD (t0 :: rest) = none →
      visiblePosition m subs now row i = some Label.configError) := by
  refine ⟨fun _ => rfl, ?_⟩
  intro m subs now row i t0 rest h1 hsp hymd hbd
  have he : row.dateTime ≠ "" := by
    intro h0
    have hemp : pySplitWS "" = [] := by decide
    rw [h0, hemp] at hsp
    cases hsp
  refine visiblePosition_configError_of m subs now row i h1 ?_
  simp only [get_reveal_date_for_debate, he, ite_false, if_neg he, hsp, hymd, hbd]

theorem malformed_rows_degrade_to_configError_witness :
    (load_submissions (some [⟨"", "Gov", "T", "For", "t"⟩])).fst =
      [⟨"", "Gov", "T", "For", "t"⟩] ∧
    visiblePosition REVEAL_SCHEDULE [] ⟨2025, 9, 25, 0, 0⟩
      ⟨"", "bad-date x", "R", some "Team A", none, none, none,
        some "Government", none, none, none⟩ 1 = some Label.configError :=
  ⟨malformed_rows_degrade_to_configError.1 [⟨"", "Gov", "T", "For", "t"⟩],
   malformed_rows_degrade_to_configError.2 REVEAL_SCHEDULE [] ⟨2025, 9, 25, 0, 0⟩
     ⟨"", "bad-date x", "R", some "Team A", none, none, none,
       some "Government", none, none, none⟩ 1 "bad-date" ["x"]
     (by decide) (by decide) (by decide) (by decide)⟩

/-- C9 counterexample: the stored team name " " and the queried name "" are
equal after trimming surrounding whitespace and ignoring case, yet the query
matches nothing — the code short-circuits on a falsy (empty) query string —
so the claimed if-and-only-if fails at the empty queried name. -/
theorem find_debates_empty_query_counterexample :
    pyStripLower " " = pyStripLower "" ∧
    find_debates_for_team ""
      [⟨"1", "d", "R", some " ", none, none, none, some "Gov", none, none, none⟩] =
      [] := by
  decide

/-- C9 amended: for every NON-EMPTY queried team name, a `(row, role)` pair
is returned by `find_debates_for_team` iff the row is in the schedule and
some slot's stored team name equals the query after `.strip().lower()`
normalization, the role being that slot's stakeholder; the empty queried
name returns no matches even when a stored name trims to the empty string
(see the counterexample). -/
theorem find_debates_match_iff (q : String) (schedule : List ScheduleRow)
    (p : ScheduleRow × Option String) (h : q ≠ "") :
    p ∈ find_debates_for_team q schedule ↔
      p.1 ∈ schedule ∧ ∃ i ∈ [1, 2, 3, 4],
        pyStripLower ((p.1.team i).getD "") = pyStripLower q ∧
        p.2 = p.1.stakeholder i := by
  obtain ⟨p1, p2⟩ := p
  rw [find_debates_for_team, if_neg h]
  constructor
  · intro hp
    obtain ⟨row, hrow, hin⟩ := List.mem_flatMap.mp hp
    obtain ⟨i, hi, hsome⟩ := List.mem_filterMap.mp hin
    by_cases hc : pyStripLower ((row.team i).getD "") = pyStripLower q
    · rw [if_pos hc] at hsome
      cases hsome
      exact ⟨hrow, i, hi, hc, rfl⟩
    · rw [if_neg hc] at hsome
      cases hsome
  · rintro ⟨hmem, i, hi, hmatch, hsnd⟩
    apply List.mem_flatMap.mpr
    refine ⟨p1, hmem, ?_⟩
    apply List.mem_filterMap.mpr
    refine ⟨i, hi, ?_⟩
    rw [if_pos hmatch]
    exact congrArg (fun x => some (p1, x)) hsnd.symm

theorem find_debates_match_iff_witness :
    (⟨⟨"1", "d", "R", some "Team A", none, none, none, some "Gov",
        none, none, none⟩, some "Gov"⟩ : ScheduleRow × Option String) ∈
      find_debates_for_team " team a "
        [⟨"1", "d", "R", some "Team A", none, none, none, some "Gov",
          none, none, none⟩] :=
  (find_debates_match_iff " team a "
      [⟨"1", "d", "R", some "Team A", none, none, none, some "Gov",
        none, none, none⟩]
      ⟨⟨"1", "d", "R", some "Team A", none, none, none, some "Gov",
        none, none, none⟩, some "Gov"⟩ (by decide)).mpr
    ⟨by decide, 1, by decide, by decide, rfl⟩
